import Mathlib

/-!
Shallow embedding of the 8-puzzle solver (files `Board.py` and `Search.py`):
a `Board` object holding a square grid of integers with a parent back-link,
successor generation, the two heuristics, and the two search loops
(`uc_search`, `astar_search`) built on Python's `heapq`.

Conventions used throughout:
* Python `int` is `Int`; grids (`state`) are `List (List Int)` in row-major
  order, exactly the nested Python lists.
* Python exceptions are `Option`: `none` is a raised exception.
* Python `while` loops in the search driver are given explicit fuel; `none`
  also stands for running out of fuel there (commented at each site).
* Python sets/dicts keyed by `Board` use `__hash__`/`__eq__`, which are
  defined purely from `state`; they are modelled as lists of states
  (respectively association lists keyed by states) queried by equality,
  which matches set/dict semantics because only membership and lookup are
  used, never iteration order.
-/

/-- Python `abs` on an integer value. -/
def pabs (x : Int) : Int := if x < 0 then -x else x

/-- Python `range(a, b)` over integers, as the list `[a, a+1, ..., b-1]`. -/
def pyRange (a b : Int) : List Int := (List.range (b - a).toNat).map (fun k => a + k)

/-- Read cell `(r, c)` of a grid with `Nat` indices (`state[r][c]`);
out-of-range reads return the junk value `0`, which never happens on the
in-bounds accesses performed by the translated code. -/
def cellN (s : List (List Int)) (r c : Nat) : Int := (s.getD r []).getD c 0

/-- Read cell `(r, c)` of a grid with `Int` indices (all such reads in the
source are at indices already checked to be in `0 ≤ · < len`). -/
def cellI (s : List (List Int)) (r c : Int) : Int := cellN s r.toNat c.toNat

/-- Write cell `(r, c)` of a grid (`s[r][c] = v`). -/
def setCellN (s : List (List Int)) (r c : Nat) (v : Int) : List (List Int) :=
  s.set r ((s.getD r []).set c v)

/-- Write cell `(r, c)` of a grid with `Int` indices. -/
def setCellI (s : List (List Int)) (r c : Int) (v : Int) : List (List Int) :=
  setCellN s r.toNat c.toNat v

/-- A `Board` object (class `Board`, `Board.py`): the grid `_state`, the
parent back-reference (`None` for the root), and the mutable bookkeeping
fields `_depth` and `_cost`.  `_depth` and `_cost` are both set to `0` by
`__init__`; `generate_children` overwrites `depth` on a fresh child right
after construction, so the constructor here takes both values explicitly
and each creation site passes what the Python object ends up holding.
The remaining attributes of the Python object (`board_size`, `empty_row`,
`empty_col`, `m_dist`, `m_tile_count`, `_hash`, `children`,
`valid_positions`) are all computed deterministically from `_state` and
are modelled as functions of the board instead of stored fields. -/
inductive Board where
  | root (state : List (List Int)) (depth : Int) (cost : Int)
  | child (state : List (List Int)) (parent : Board) (depth : Int) (cost : Int)
deriving DecidableEq

/-- Build a board from an optional parent, as `Board(state, parent)` does
(the two constructors of `Board` are just the `parent is None` /
`parent is not None` cases of the one Python object shape, split so that
recursion along the parent chain is structural). -/
def Board.make (state : List (List Int)) (parent : Option Board)
    (depth cost : Int) : Board :=
  match parent with
  | none => .root state depth cost
  | some p => .child state p depth cost

/-- Attribute `_state`. -/
def Board.state : Board → List (List Int)
  | .root s _ _ => s
  | .child s _ _ _ => s

/-- Attribute `parent`. -/
def Board.parent : Board → Option Board
  | .root _ _ _ => none
  | .child _ p _ _ => some p

/-- Attribute `_depth`. -/
def Board.depth : Board → Int
  | .root _ d _ => d
  | .child _ _ d _ => d

/-- Attribute `_cost`. -/
def Board.cost : Board → Int
  | .root _ _ c => c
  | .child _ _ _ c => c

/-- `Board.__init__(state, parent)`: depth and cost start at `0`. -/
def Board.init (state : List (List Int)) (parent : Option Board) : Board :=
  Board.make state parent 0 0

/-- Attribute `board_size` (`len(self.state)`). -/
def Board.board_size (b : Board) : Nat := b.state.length

/-- The `__init__` scan locating the blank: iterate over all `(row, col)`
with two nested `range(board_size)` loops and record the position of each
cell equal to `0` (there is no `break`, so the last such position wins);
`(-1, -1)` if no cell is `0`. -/
def findEmpty (s : List (List Int)) : Int × Int :=
  (List.range s.length).foldl (fun acc row =>
    (List.range s.length).foldl (fun acc2 col =>
      if cellN s row col = 0 then ((row : Int), (col : Int)) else acc2) acc)
    (-1, -1)

/-- Attribute `empty_row`. -/
def Board.empty_row (b : Board) : Int := (findEmpty b.state).1

/-- Attribute `empty_col`. -/
def Board.empty_col (b : Board) : Int := (findEmpty b.state).2

/-- Class attribute `Board.final`, the goal grid (a 3×3 constant). -/
def Board.final : List (List Int) := [[1, 2, 3], [4, 5, 6], [7, 8, 0]]

/-- `Board.is_final_state`: `self._state == Board.final`. -/
def Board.is_final_state (b : Board) : Bool := b.state = Board.final

/-- `Board.get_surrounding_valid_positions`: scan the 3×3 window around the
blank in row-major order (`range(empty_row - 1, empty_row + 2)` crossed
with the same for columns), skip out-of-bounds indices, and keep `(i, j)`
when exactly one of `i == empty_row`, `j == empty_col` holds (the source's
`is_empty_row ^ is_empty_col == 1`).  The Python method appends to
`self.valid_positions` and returns it; the list starts empty, and
`generate_children`'s memoization guard means the method is never run
twice on the same object in a search, so the pure list of appended
positions is the faithful value. -/
def gsvpAux (er ec n : Int) : List (Int × Int) :=
  (pyRange (er - 1) (er + 2)).foldl (fun acc i =>
    if i < 0 ∨ n ≤ i then acc
    else (pyRange (ec - 1) (ec + 2)).foldl (fun acc2 j =>
      if j < 0 ∨ n ≤ j then acc2
      else if (decide (er = i)).xor (decide (ec = j)) then acc2 ++ [(i, j)]
      else acc2) acc) []

/-- `get_surrounding_valid_positions` of a board object. -/
def Board.get_surrounding_valid_positions (b : Board) : List (Int × Int) :=
  gsvpAux b.empty_row b.empty_col (b.board_size : Int)

/-- The body of `generate_children`'s swap: deep-copy the grid, move the
neighbour's value into the blank cell, and put `0` at the neighbour
(`b[self.empty_row][self.empty_col] = b[row][col]; b[row][col] = 0`). -/
def swapBlank (s : List (List Int)) (er ec r c : Int) : List (List Int) :=
  setCellI (setCellI s er ec (cellI s r c)) r c 0

/-- `Board.generate_children(visited)`: for each valid position, build the
swapped grid; skip it if the board has a parent with that same grid
(`if self.parent and self.parent.state == b: continue`); otherwise create
`Board(b, self)` with `depth = 1 + self.depth`, and keep it unless a
non-`None` `visited` set already contains that grid (`child in visited`
tests by board contents).  The `self.children` cache is dropped: in both
search loops every board object is pushed, popped and hence expanded at
most once, so the cache is never consulted after being filled. -/
def Board.generate_children (b : Board) (visited : Option (List (List (List Int)))) :
    List Board :=
  b.get_surrounding_valid_positions.foldl (fun acc pos =>
    let nb := swapBlank b.state b.empty_row b.empty_col pos.1 pos.2
    if (match b.parent with | some p => decide (p.state = nb) | none => false) then acc
    else
      let found := (match visited with | some v => decide (nb ∈ v) | none => false)
      if found then acc
      else acc ++ [Board.child nb b (1 + b.depth) 0]) []

/-- The value `Board.get_cost` computes on a non-`None` argument:
`1 + get_cost(board.parent)`, i.e. one per board on the parent chain. -/
def chainCount : Board → Int
  | .root _ _ _ => 1
  | .child _ p _ _ => 1 + chainCount p

/-- `Board.get_cost(board)`: `0` for `None`, else `1 + get_cost(board.parent)`
(see `get_cost_some` for this unfolding stated verbatim). -/
def get_cost : Option Board → Int
  | none => 0
  | some b => chainCount b

/-- Number of parent links (edges) from a board to the root of its parent
chain; this is the quantity the specification calls "edges to the root",
stated from the spec's words for comparison with `get_cost`. -/
def parentEdges : Board → Nat
  | .root _ _ _ => 0
  | .child _ p _ _ => 1 + parentEdges p

/-- `Board.misplaced_tile`: count the cells that are nonzero and differ
from `Board.final` at the same position, scanning `range(board_size)`
twice.  The `m_tile_count` memoization (`-1` sentinel) only caches this
pure value and is dropped. -/
def misplaced_tile (s : List (List Int)) : Int :=
  (List.range s.length).foldl (fun acc row =>
    (List.range s.length).foldl (fun acc2 col =>
      if cellN s row col ≠ 0 ∧ cellN s row col ≠ cellN Board.final row col
      then acc2 + 1 else acc2) acc) 0

/-- Goal row of value `k` as computed by `manhattan_distance`:
`(k / n) - 1` when `k % n == 0`, else `int(k / n)`.  Python's `/` is float
division and `int(...)` truncates toward zero; on the first branch the
division is exact, so both branches equal truncating division `Int.div`
for the nonnegative values a board holds. -/
def goalRowCode (k : Int) (n : Nat) : Int :=
  if k % (n : Int) = 0 then Int.tdiv k (n : Int) - 1 else Int.tdiv k (n : Int)

/-- Goal column of value `k` as computed by `manhattan_distance`:
`n - 1` when `k % n == 0`, else `(k % n) - 1` (Python `%` on a positive
modulus agrees with `Int.emod`). -/
def goalColCode (k : Int) (n : Nat) : Int :=
  if k % (n : Int) = 0 then (n : Int) - 1 else k % (n : Int) - 1

/-- One cell's contribution to `manhattan_distance`: `0` for the blank
(`continue`), else `abs(r - row) + abs(c - col)`. -/
def mterm (n : Nat) (k : Int) (row col : Nat) : Int :=
  if k = 0 then 0
  else pabs (goalRowCode k n - (row : Int)) + pabs (goalColCode k n - (col : Int))

/-- `Board.manhattan_distance`: sum `mterm` over the whole grid with two
nested `range(board_size)` loops.  The `m_dist` memoization (`-1`
sentinel) only caches this pure value and is dropped. -/
def manhattan_distance (s : List (List Int)) : Int :=
  (List.range s.length).foldl (fun acc row =>
    (List.range s.length).foldl (fun acc2 col =>
      acc2 + mterm s.length (cellN s row col) row col) acc) 0

/-- `Board.get_board_size(size)`: the body runs `for i in size` where
`size` is an `int`; a Python `int` is not iterable, so the statement
raises `TypeError` before a single cell of `Board.final` is written.  The
raised exception is `none`.  (The loop body `Board.final[i][j] = (i *
size) + j + 1` is therefore dead code; see `get_board_size_intended`.) -/
def get_board_size (_size : Int) : Option (List (List Int)) :=
  none

/-- Modelled from the spec: the goal-grid initialization the routine was
evidently meant to perform — `for i in range(size): for j in range(size):
final[i][j] = i * size + j + 1` — applied to a given goal grid. -/
def get_board_size_intended (size : Nat) (final : List (List Int)) : List (List Int) :=
  (List.range size).foldl (fun g i =>
    (List.range size).foldl (fun g2 j =>
      setCellN g2 i j ((i : Int) * (size : Int) + (j : Int) + 1)) g) final

/-- Modelled from the spec: the canonical goal grid for dimension `d`,
"row-major ascending `1..d²-1` then `0` in the final cell". -/
def goalBoardSpec (d : Nat) : List (List Int) :=
  (List.range d).map (fun i =>
    (List.range d).map (fun j =>
      if i = d - 1 ∧ j = d - 1 then 0 else (i : Int) * (d : Int) + (j : Int) + 1))

/-- Indicator of a misplaced tile: the contribution of one cell (with
value `x`, goal value `y`) to `misplaced_tile`. -/
def ind (x y : Int) : Int := if x ≠ 0 ∧ x ≠ y then 1 else 0

/-- Items held by the priority frontier: the tuples `(cost, board)` pushed
by both search loops. -/
abbrev HeapItem := Int × Board

/-- Junk item used as the default of out-of-range list reads inside the
heap routines; every read the routines perform is in bounds. -/
def dummyItem : HeapItem := (0, Board.root [] 0 0)

/-- `Board.__lt__`: compare by `depth` when both `cost` and `state` agree,
otherwise by `cost` (which leaves distinct same-cost boards mutually
"not less than", exactly as in the source). -/
def boardLt (b1 b2 : Board) : Bool :=
  if b1.cost = b2.cost ∧ b1.state = b2.state then b1.depth < b2.depth
  else b1.cost < b2.cost

/-- Python's comparison on the `(cost, board)` tuples: compare the `Int`
components first; only on equality fall through to `Board.__lt__`. -/
def itemLt (x y : HeapItem) : Bool :=
  if x.1 = y.1 then boardLt x.2 y.2 else decide (x.1 < y.1)

/-- The `while pos > startpos` loop of CPython's `heapq._siftdown`:
`newitem` bubbles up past larger parents, and is finally stored at the
resting position.  The loop is written with a structural fuel argument so
that it evaluates inside the kernel; each iteration strictly decreases
`pos` (to `(pos - 1) / 2`), so any fuel `≥ pos` — the wrapper
`siftdownLoop` passes exactly `pos` — makes the base case unreachable,
and the base case performs the loop's exit action (`heap[pos] = newitem`)
anyway. -/
def siftdownGo : Nat → List HeapItem → Nat → Nat → HeapItem → List HeapItem
  | 0, heap, _, pos, newitem => heap.set pos newitem
  | fuel + 1, heap, startpos, pos, newitem =>
    if startpos < pos then
      let parentpos := (pos - 1) / 2
      let parent := heap.getD parentpos dummyItem
      if itemLt newitem parent then
        siftdownGo fuel (heap.set pos parent) startpos parentpos newitem
      else heap.set pos newitem
    else heap.set pos newitem

/-- The `_siftdown` bubble-up loop at its natural fuel. -/
def siftdownLoop (heap : List HeapItem) (startpos pos : Nat) (newitem : HeapItem) :
    List HeapItem :=
  siftdownGo pos heap startpos pos newitem

/-- The `while childpos < endpos` loop of CPython's `heapq._siftup`: move
the smaller child up into `pos` and descend; returns the final heap array
together with the final resting position.  Fueled like `siftdownGo`: each
iteration at least doubles `pos`, so fuel `endpos` (passed by `siftup`)
is never exhausted, and the base case is the loop's exit action. -/
def siftupGo : Nat → List HeapItem → Nat → Nat → List HeapItem × Nat
  | 0, heap, _, pos => (heap, pos)
  | fuel + 1, heap, endpos, pos =>
    if 2 * pos + 1 < endpos then
      if 2 * pos + 2 < endpos ∧
          itemLt (heap.getD (2 * pos + 1) dummyItem)
            (heap.getD (2 * pos + 2) dummyItem) = false then
        siftupGo fuel (heap.set pos (heap.getD (2 * pos + 2) dummyItem)) endpos
          (2 * pos + 2)
      else
        siftupGo fuel (heap.set pos (heap.getD (2 * pos + 1) dummyItem)) endpos
          (2 * pos + 1)
    else (heap, pos)

/-- `heapq._siftup(heap, pos)`: run the descend loop, store `newitem` at
the final position, then `_siftdown(heap, pos, finalpos)`. -/
def siftup (heap : List HeapItem) (pos : Nat) : List HeapItem :=
  let newitem := heap.getD pos dummyItem
  let r := siftupGo heap.length heap heap.length pos
  siftdownLoop (r.1.set r.2 newitem) pos r.2 newitem

/-- `heapq.heappush(heap, item)`: append, then `_siftdown(heap, 0, len-1)`. -/
def heappush (heap : List HeapItem) (item : HeapItem) : List HeapItem :=
  siftdownLoop (heap ++ [item]) 0 heap.length item

/-- `heapq.heappop(heap)`: pop the last element; if the heap is still
nonempty, replace the root with it and `_siftup(heap, 0)`, returning the
old root.  `none` is the `IndexError` raised on an empty heap (the search
loops guard against it with `while len(nodes) > 0`). -/
def heappop (heap : List HeapItem) : Option (HeapItem × List HeapItem) :=
  if heap.isEmpty then none
  else
    let lastelt := heap.getLastD dummyItem
    let rest := heap.dropLast
    if rest.isEmpty then some (lastelt, [])
    else some (rest.getD 0 dummyItem, siftup (rest.set 0 lastelt) 0)

/-- Outcome of a search call: the returned node (`none` when the frontier
emptied without reaching the goal), plus the solver's statistics
`count_nodes_expanded` and `max_queue_size`, plus — purely observational —
the list of boards that were popped and expanded, in order (each entry of
`trace` corresponds to one increment of `count_nodes_expanded`). -/
structure RunResult where
  result : Option Board
  expanded : Nat
  maxq : Nat
  trace : List Board

/-- The `while` loop of `Search.uc_search`, with fuel.  The source loop
has no bound of its own; when the fuel runs out mid-run the statistics
accumulated by the iterations performed so far are returned with
`result := none`, so a `RunResult` whose `result` carries a board is
always a completed run, and `expanded`/`trace` always describe a prefix
of the run (the whole run when the loop returned by itself). -/
def ucsLoop (fuel : Nat) (nodes : List HeapItem) (visited : List (List (List Int)))
    (count maxq : Nat) (trace : List Board) : RunResult :=
  match fuel with
  | 0 => ⟨none, count, maxq, trace⟩
  | fuel + 1 =>
    match heappop nodes with
    | none => ⟨none, count, maxq, trace⟩
    | some ((cost, b), nodes1) =>
      if b.is_final_state then ⟨some b, count, maxq, trace⟩
      else
        let visited1 := if b.state ∈ visited then visited else b.state :: visited
        let children := b.generate_children (some visited1)
        let count1 := count + 1
        let nodes2 := children.foldl (fun h c => heappush h (1 + cost, c)) nodes1
        let maxq1 := if maxq < nodes2.length then nodes2.length else maxq
        ucsLoop fuel nodes2 visited1 count1 maxq1 (trace ++ [b])

/-- `Search.uc_search`: push `(0, Board(initial_state, None))` and loop. -/
def uc_search (fuel : Nat) (initial : List (List Int)) : RunResult :=
  ucsLoop fuel (heappush [] (0, Board.init initial none)) [] 0 0 []

/-- Module constants `MISPLACED_TILE = 0`, `MANHATTAN_DISTANCE = 1`. -/
def MISPLACED_TILE : Int := 0

/-- Module constant `MANHATTAN_DISTANCE = 1`. -/
def MANHATTAN_DISTANCE : Int := 1

/-- `Search.get_heuristic_cost`: `0` for `None`, else dispatch on the
configured heuristic flag (anything other than the two flags yields the
initial `heuristic_cost = 0`). -/
def get_heuristic_cost (heuristic : Int) (node : Option Board) : Int :=
  match node with
  | none => 0
  | some n =>
    if heuristic = MANHATTAN_DISTANCE then manhattan_distance n.state
    else if heuristic = MISPLACED_TILE then misplaced_tile n.state
    else 0

/-- Lookup `g_x[s]` in the dictionary keyed by board contents; `none` is a
`KeyError`. -/
def gxLookup (gx : List (List (List Int) × Int)) (s : List (List Int)) : Option Int :=
  (gx.find? (fun p => decide (p.1 = s))).map (fun p => p.2)

/-- Dictionary store `g_x[s] = v` (update the existing key or append). -/
def gxSet (gx : List (List (List Int) × Int)) (s : List (List Int)) (v : Int) :
    List (List (List Int) × Int) :=
  if gx.any (fun p => decide (p.1 = s)) then
    gx.map (fun p => if p.1 = s then (p.1, v) else p)
  else gx ++ [(s, v)]

/-- The body of `astar_search`'s `for child in children` loop, threading
the frontier, the `g_x` dictionary and the `visited` set of pushed
`(cost, board)` pairs: recompute `child_g_x = 1 + g_x[b]` from the current
dictionary, default `g_x[child]` to `100000000` when absent, and on a
strict improvement record the new `g`, compute `f = h + g`, and push
`(f, child)` unless that exact pair was pushed before.  A `KeyError` on
`g_x[b]` (which no actual run raises, since every pushed board was first
recorded in `g_x`) is `none`. -/
def astarChildStep (heuristic : Int) (b : Board)
    (acc : List HeapItem × List (List (List Int) × Int) ×
      List (Int × List (List Int))) (child : Board) :
    Option (List HeapItem × List (List (List Int) × Int) ×
      List (Int × List (List Int))) :=
  match gxLookup acc.2.1 b.state with
  | none => none
  | some gb =>
    let child_g_x := 1 + gb
    let gx1 :=
      if acc.2.1.any (fun p => decide (p.1 = child.state)) then acc.2.1
      else acc.2.1 ++ [(child.state, 100000000)]
    match gxLookup gx1 child.state with
    | none => none
    | some gc =>
      if child_g_x < gc then
        let gx2 := gxSet gx1 child.state child_g_x
        let h_x := get_heuristic_cost heuristic (some child)
        let total := h_x + child_g_x
        if (total, child.state) ∈ acc.2.2 then some (acc.1, gx2, acc.2.2)
        else some (heappush acc.1 (total, child), gx2,
          acc.2.2 ++ [(total, child.state)])
      else some (acc.1, gx1, acc.2.2)

/-- The `while` loop of `Search.astar_search`; the inner `for` loop is a
monadic fold of `astarChildStep` over the children.  `none` stands for a
`KeyError` inside the fold; exhausted fuel returns the statistics of the
iterations performed so far with `result := none`, as in `ucsLoop`. -/
def astarLoop (fuel : Nat) (heuristic : Int) (nodes : List HeapItem)
    (gx : List (List (List Int) × Int)) (vp : List (Int × List (List Int)))
    (count maxq : Nat) (trace : List Board) : Option RunResult :=
  match fuel with
  | 0 => some ⟨none, count, maxq, trace⟩
  | fuel + 1 =>
    match heappop nodes with
    | none => some ⟨none, count, maxq, trace⟩
    | some ((_cost, b), nodes1) =>
      if b.is_final_state then some ⟨some b, count, maxq, trace⟩
      else
        let children := b.generate_children none
        let count1 := count + 1
        match children.foldlM (astarChildStep heuristic b) (nodes1, gx, vp) with
        | none => none
        | some (nodes2, gx2, vp2) =>
          let maxq1 := if maxq < nodes2.length then nodes2.length else maxq
          astarLoop fuel heuristic nodes2 gx2 vp2 count1 maxq1 (trace ++ [b])

/-- `Search.astar_search`: seed `g_x[board_start] = 0`, push
`(0, board_start)` and loop. -/
def astar_search (fuel : Nat) (heuristic : Int) (initial : List (List Int)) :
    Option RunResult :=
  astarLoop fuel heuristic (heappush [] (0, Board.init initial none))
    [(initial, 0)] [] 0 0 []

/-- The solution depth reported by `Search.print_search_stats` for a
returned node: `Board.get_cost(node.parent)`. -/
def reported_depth (node : Board) : Int := get_cost node.parent

/-- One cell's contribution to the Manhattan distance as the spec words
it: `0` for the blank, else `|current_row - goal_row| + |current_col -
goal_col|` with the goal position of value `k` at row `(k-1) div n`,
column `(k-1) mod n`. -/
def mtermSpec (n : Nat) (k : Int) (row col : Nat) : Int :=
  if k = 0 then 0
  else pabs ((row : Int) - (k - 1) / (n : Int)) +
    pabs ((col : Int) - (k - 1) % (n : Int))

/-- Manhattan distance as the spec words it: the sum of `mtermSpec` over
all cells of the grid. -/
def manhattanSpec (s : List (List Int)) : Int :=
  (List.range s.length).foldl (fun acc row =>
    (List.range s.length).foldl (fun acc2 col =>
      acc2 + mtermSpec s.length (cellN s row col) row col) acc) 0

/-- Modelled from the spec: "valid move offsets are exactly the four
orthogonal neighbors of the blank within grid bounds (no wraparound)" —
`(x, y)` is one of `(er, ec±1)`, `(er±1, ec)` and lies inside the `n`×`n`
grid. -/
def isOrthNeighborSpec (er ec n x y : Int) : Prop :=
  0 ≤ x ∧ x < n ∧ 0 ≤ y ∧ y < n ∧
    ((x = er ∧ (y = ec - 1 ∨ y = ec + 1)) ∨ (y = ec ∧ (x = er - 1 ∨ x = er + 1)))

instance isOrthNeighborSpec.decidable (er ec n x y : Int) :
    Decidable (isOrthNeighborSpec er ec n x y) := by
  unfold isOrthNeighborSpec
  infer_instance

/-- Whether a `uc_search` run (within the given fuel) pops-and-expands two
boards with identical contents: `true` when the list of expanded boards —
one entry per `count_nodes_expanded` increment — repeats a state. -/
def ucsDoubleExpansion (fuel : Nat) (initial : List (List Int)) : Bool :=
  !(decide ((uc_search fuel initial).trace.map Board.state).Nodup)

/-- `get_cost` satisfies its source recurrence verbatim:
`get_cost(board) = 1 + get_cost(board.parent)` on non-`None` input. -/
theorem get_cost_some (b : Board) : get_cost (some b) = 1 + get_cost b.parent := by
  cases b <;> simp [get_cost, chainCount, Board.parent]

/-- C9: when the initial board already equals the goal board, both
`uc_search` and `astar_search` (with either heuristic) return the root
board on the very first pop, before ever incrementing
`count_nodes_expanded`: the returned node is the parentless root, the
expansion count is `0`, and the reported solution depth
(`get_cost(node.parent)`, as printed by `print_search_stats`) is `0`. -/
theorem goal_start_expands_nothing :
    uc_search 5 Board.final = ⟨some (Board.root Board.final 0 0), 0, 0, []⟩ ∧
    astar_search 5 MANHATTAN_DISTANCE Board.final
      = some ⟨some (Board.root Board.final 0 0), 0, 0, []⟩ ∧
    astar_search 5 MISPLACED_TILE Board.final
      = some ⟨some (Board.root Board.final 0 0), 0, 0, []⟩ ∧
    reported_depth (Board.root Board.final 0 0) = 0 :=
  ⟨rfl, rfl, rfl, rfl⟩

/-- C4 counterexample: a root state (here `Board(final, None)`) lies at
`0` edges from the root of its parent chain — itself — yet `get_cost`
returns `1`, so `get_cost` does not return the number of edges to the
root for every non-null state. -/
theorem get_cost_root_ne_edges :
    parentEdges (Board.root Board.final 0 0) = 0 ∧
    get_cost (some (Board.root Board.final 0 0)) = 1 :=
  ⟨rfl, rfl⟩

/-- C4 amended: `get_cost` returns `0` on a null state, and on a non-null
state returns one more than the number of parent-link edges to the root —
i.e. the number of boards on the chain.  (`print_search_stats` compensates
by calling it on `node.parent`, so the printed depth is the edge count.) -/
theorem get_cost_counts_nodes :
    get_cost none = 0 ∧ ∀ b : Board, get_cost (some b) = (parentEdges b : Int) + 1 := by
  refine ⟨rfl, fun b => ?_⟩
  induction b with
  | root s d c => simp [get_cost, chainCount, parentEdges]
  | child s p d c ih =>
    simp only [get_cost, chainCount, parentEdges] at ih ⊢
    omega

/-- Absolute difference is symmetric. -/
theorem pabs_sub_comm (x y : Int) : pabs (x - y) = pabs (y - x) := by
  unfold pabs; split_ifs <;> omega

/-- The goal coordinates computed by `manhattan_distance`'s two branches
coincide with the closed forms `(k-1) div n` and `(k-1) mod n` for every
tile value `k ≥ 1`. -/
theorem goalCode_eq (k : Int) (n : Nat) (hk : 1 ≤ k) (hn : 1 ≤ n) :
    goalRowCode k n = (k - 1) / (n : Int) ∧ goalColCode k n = (k - 1) % (n : Int) := by
  have hn1 : (1 : Int) ≤ (n : Int) := by exact_mod_cast hn
  have hn0 : (n : Int) ≠ 0 := by omega
  have htd : Int.tdiv k (n : Int) = k / (n : Int) :=
    Int.tdiv_eq_ediv (by omega) (by omega)
  have hq := Int.ediv_add_emod k (n : Int)
  by_cases h : k % (n : Int) = 0
  · have hkq : (k / (n : Int)) * (n : Int) = k := by
      rw [mul_comm]; omega
    have hk1 : k - 1 = ((n : Int) - 1) + (k / (n : Int) - 1) * (n : Int) := by
      have hr : ((n : Int) - 1) + (k / (n : Int) - 1) * (n : Int)
          = (k / (n : Int)) * (n : Int) - 1 := by ring
      rw [hr, hkq]
    constructor
    · rw [goalRowCode, if_pos h, htd, hk1,
        Int.add_mul_ediv_right ((n : Int) - 1) (k / (n : Int) - 1) hn0,
        @Int.ediv_eq_zero_of_lt ((n : Int) - 1) (n : Int) (by omega) (by omega),
        zero_add]
    · rw [goalColCode, if_pos h, hk1,
        @Int.add_mul_emod_self ((n : Int) - 1) (k / (n : Int) - 1) (n : Int),
        @Int.emod_eq_of_lt ((n : Int) - 1) (n : Int) (by omega) (by omega)]
  · have ht0 : 0 ≤ k % (n : Int) := Int.emod_nonneg k hn0
    have htn : k % (n : Int) < (n : Int) := Int.emod_lt_of_pos k (by omega)
    have hk1 : k - 1 = (k % (n : Int) - 1) + (k / (n : Int)) * (n : Int) := by
      rw [mul_comm (k / (n : Int)) (n : Int)]; omega
    constructor
    · rw [goalRowCode, if_neg h, htd, hk1,
        Int.add_mul_ediv_right (k % (n : Int) - 1) (k / (n : Int)) hn0,
        @Int.ediv_eq_zero_of_lt (k % (n : Int) - 1) (n : Int) (by omega) (by omega),
        zero_add]
    · rw [goalColCode, if_neg h, hk1,
        @Int.add_mul_emod_self (k % (n : Int) - 1) (k / (n : Int)) (n : Int),
        @Int.emod_eq_of_lt (k % (n : Int) - 1) (n : Int) (by omega) (by omega)]

/-- The per-cell Manhattan term computed by the code equals the spec's
per-cell term, for a nonnegative cell value on a nonempty grid. -/
theorem mterm_eq_spec (n : Nat) (k : Int) (row col : Nat) (hk : 0 ≤ k) (hn : 1 ≤ n) :
    mterm n k row col = mtermSpec n k row col := by
  unfold mterm mtermSpec
  by_cases h0 : k = 0
  · simp [h0]
  · obtain ⟨hr, hc⟩ := goalCode_eq k n (by omega) hn
    rw [if_neg h0, if_neg h0, hr, hc,
      pabs_sub_comm ((k - 1) / (n : Int)) (row : Int),
      pabs_sub_comm ((k - 1) % (n : Int)) (col : Int)]

/-- Two folds with pointwise-equal step functions agree. -/
theorem foldl_congr_on {α β : Type} (f g : β → α → β) (l : List α)
    (h : ∀ acc, ∀ x ∈ l, f acc x = g acc x) : ∀ b, l.foldl f b = l.foldl g b := by
  induction l with
  | nil => intro b; rfl
  | cons hd tl ih =>
    intro b
    simp only [List.foldl_cons]
    rw [h b hd (List.mem_cons_self hd tl)]
    exact ih (fun acc x hx => h acc x (List.mem_cons_of_mem hd hx)) _

/-- C5: `get_board_size` raises `TypeError` on every dimension (its loop
iterates over the integer itself), so the goal grid is never rewritten;
and even the evidently intended `range(size)` loop would fill the last
cell with `size²` (here `9`), not `0`, so it would not produce the
canonical goal board either. -/
theorem get_board_size_never_initializes :
    get_board_size 3 = none ∧
    get_board_size_intended 3 Board.final ≠ goalBoardSpec 3 :=
  ⟨rfl, by decide⟩

/-- C6: for every board with nonnegative entries, `manhattan_distance`
equals the sum over all nonzero cells of `|current_row - goal_row| +
|current_col - goal_col|` where the goal position of value `k` is row
`(k-1) div dimension` and column `(k-1) mod dimension`. -/
theorem manhattan_matches_spec (s : List (List Int))
    (h : ∀ r, r < s.length → ∀ c, c < s.length → 0 ≤ cellN s r c) :
    manhattan_distance s = manhattanSpec s := by
  unfold manhattan_distance manhattanSpec
  refine foldl_congr_on _ _ _ (fun acc row hrow => ?_) 0
  have hrow' := List.mem_range.mp hrow
  refine foldl_congr_on _ _ _ (fun acc2 col hcol => ?_) acc
  have hcol' := List.mem_range.mp hcol
  rw [mterm_eq_spec s.length (cellN s row col) row col (h row hrow' col hcol')
    (by omega)]

/-- C6 witness: the hypothesis and conclusion of `manhattan_matches_spec`
at the one-move board `[[1,2,3],[4,5,0],[7,8,6]]`. -/
theorem manhattan_matches_spec_witness :
    (∀ r, r < ([[1,2,3],[4,5,0],[7,8,6]] : List (List Int)).length →
      ∀ c, c < ([[1,2,3],[4,5,0],[7,8,6]] : List (List Int)).length →
        0 ≤ cellN [[1,2,3],[4,5,0],[7,8,6]] r c) ∧
    manhattan_distance [[1,2,3],[4,5,0],[7,8,6]]
      = manhattanSpec [[1,2,3],[4,5,0],[7,8,6]] :=
  ⟨by decide, manhattan_matches_spec [[1,2,3],[4,5,0],[7,8,6]] (by decide)⟩

/-- Accumulator form of a counting `if`: peeling the running sum out of
the branches. -/
theorem ite_acc_add (P : Prop) [Decidable P] (acc : Int) :
    (if P then acc + 1 else acc) = acc + (if P then 1 else 0) := by
  split_ifs <;> omega

/-- The misplaced-tile indicator is nonnegative. -/
theorem ind_nonneg (x y : Int) : 0 ≤ ind x y := by
  unfold ind; split_ifs <;> omega

/-- The misplaced-tile indicator vanishes exactly on the blank or a
correctly placed value. -/
theorem ind_eq_zero_iff (x y : Int) : ind x y = 0 ↔ (x = 0 ∨ x = y) := by
  unfold ind; split_ifs with hc <;> omega

/-- Every per-cell Manhattan term is nonnegative. -/
theorem mterm_nonneg (n : Nat) (k : Int) (r c : Nat) : 0 ≤ mterm n k r c := by
  unfold mterm pabs; split_ifs <;> omega

/-- `misplaced_tile` on a 3×3 grid of unknowns is the sum of the nine
per-cell indicators against the goal values. -/
theorem misplaced_tile_3x3 (a b c d e f g h i : Int) :
    misplaced_tile [[a, b, c], [d, e, f], [g, h, i]] =
      ind a 1 + ind b 2 + ind c 3 + ind d 4 + ind e 5 + ind f 6 +
        ind g 7 + ind h 8 + ind i 0 := by
  simp only [misplaced_tile, List.length_cons, List.length_nil, List.range_succ,
    List.range_zero, List.nil_append, List.cons_append, List.foldl_cons,
    List.foldl_nil, cellN, Board.final, List.getD_cons_zero, List.getD_cons_succ,
    ite_acc_add, ind]
  omega

/-- `manhattan_distance` on a 3×3 grid of unknowns is the sum of the nine
per-cell Manhattan terms. -/
theorem manhattan_3x3 (a b c d e f g h i : Int) :
    manhattan_distance [[a, b, c], [d, e, f], [g, h, i]] =
      mterm 3 a 0 0 + mterm 3 b 0 1 + mterm 3 c 0 2 + mterm 3 d 1 0 +
        mterm 3 e 1 1 + mterm 3 f 1 2 + mterm 3 g 2 0 + mterm 3 h 2 1 +
        mterm 3 i 2 2 := by
  simp only [manhattan_distance, List.length_cons, List.length_nil, List.range_succ,
    List.range_zero, List.nil_append, List.cons_append, List.foldl_cons,
    List.foldl_nil, cellN, List.getD_cons_zero, List.getD_cons_succ]
  norm_num

/-- For a tile value in `0..8`, each of the nine per-cell Manhattan terms
vanishes exactly when the value is the blank or the one whose goal cell
that is. -/
theorem cell_mterm_zero (k : Int) (h0 : 0 ≤ k) (h8 : k ≤ 8) :
    (mterm 3 k 0 0 = 0 ↔ k = 0 ∨ k = 1) ∧ (mterm 3 k 0 1 = 0 ↔ k = 0 ∨ k = 2) ∧
    (mterm 3 k 0 2 = 0 ↔ k = 0 ∨ k = 3) ∧ (mterm 3 k 1 0 = 0 ↔ k = 0 ∨ k = 4) ∧
    (mterm 3 k 1 1 = 0 ↔ k = 0 ∨ k = 5) ∧ (mterm 3 k 1 2 = 0 ↔ k = 0 ∨ k = 6) ∧
    (mterm 3 k 2 0 = 0 ↔ k = 0 ∨ k = 7) ∧ (mterm 3 k 2 1 = 0 ↔ k = 0 ∨ k = 8) ∧
    (mterm 3 k 2 2 = 0 ↔ k = 0) := by
  interval_cases k <;> decide

/-- For a tile value in `0..8`, each per-cell misplaced indicator is
dominated by the per-cell Manhattan term at the same position. -/
theorem cell_ind_le_mterm (k : Int) (h0 : 0 ≤ k) (h8 : k ≤ 8) :
    ind k 1 ≤ mterm 3 k 0 0 ∧ ind k 2 ≤ mterm 3 k 0 1 ∧ ind k 3 ≤ mterm 3 k 0 2 ∧
    ind k 4 ≤ mterm 3 k 1 0 ∧ ind k 5 ≤ mterm 3 k 1 1 ∧ ind k 6 ≤ mterm 3 k 1 2 ∧
    ind k 7 ≤ mterm 3 k 2 0 ∧ ind k 8 ≤ mterm 3 k 2 1 ∧ ind k 0 ≤ mterm 3 k 2 2 := by
  interval_cases k <;> decide

/-- A sum of nine nonnegative integers is zero only if each vanishes. -/
theorem sum9_eq_zero (x1 x2 x3 x4 x5 x6 x7 x8 x9 : Int)
    (h : x1 + x2 + x3 + x4 + x5 + x6 + x7 + x8 + x9 = 0)
    (h1 : 0 ≤ x1) (h2 : 0 ≤ x2) (h3 : 0 ≤ x3) (h4 : 0 ≤ x4) (h5 : 0 ≤ x5)
    (h6 : 0 ≤ x6) (h7 : 0 ≤ x7) (h8 : 0 ≤ x8) (h9 : 0 ≤ x9) :
    x1 = 0 ∧ x2 = 0 ∧ x3 = 0 ∧ x4 = 0 ∧ x5 = 0 ∧ x6 = 0 ∧ x7 = 0 ∧ x8 = 0 ∧
      x9 = 0 := by
  omega

/-- A value that is either `0` or `v`, distinct from a value known to be
`0`, must be `v`. -/
theorem pin_value (x y v : Int) (hx : x = 0 ∨ x = v) (hne : ¬x = y) (hy : y = 0) :
    x = v := by
  omega

/-- C7: on a 3×3 board whose cells are a permutation of `0..8`,
`misplaced_tile` is `0` exactly when the board is the goal board, and
`manhattan_distance` is `0` exactly when the board is the goal board. -/
theorem heuristics_zero_iff_goal (a b c d e f g h i : Int)
    (hp : ([a, b, c, d, e, f, g, h, i] : List Int).Perm
      [0, 1, 2, 3, 4, 5, 6, 7, 8]) :
    (misplaced_tile [[a, b, c], [d, e, f], [g, h, i]] = 0 ↔
      [[a, b, c], [d, e, f], [g, h, i]] = Board.final) ∧
    (manhattan_distance [[a, b, c], [d, e, f], [g, h, i]] = 0 ↔
      [[a, b, c], [d, e, f], [g, h, i]] = Board.final) := by
  have hsub := hp.subset
  have hrange : ∀ x ∈ ([a, b, c, d, e, f, g, h, i] : List Int), 0 ≤ x ∧ x ≤ 8 := by
    intro x hx
    have hx2 := hsub hx
    simp only [List.mem_cons, List.not_mem_nil, or_false] at hx2
    omega
  have Ba := hrange a (by simp); have Bb := hrange b (by simp)
  have Bc := hrange c (by simp); have Bd := hrange d (by simp)
  have Be := hrange e (by simp); have Bf := hrange f (by simp)
  have Bg := hrange g (by simp); have Bh := hrange h (by simp)
  have Bi := hrange i (by simp)
  have hnd : ([a, b, c, d, e, f, g, h, i] : List Int).Nodup :=
    hp.nodup_iff.mpr (by decide)
  simp only [List.nodup_cons, List.mem_cons, List.not_mem_nil, or_false,
    List.nodup_nil, and_true, not_or] at hnd
  have hai : ¬a = i := hnd.1.2.2.2.2.2.2.2
  have hbi : ¬b = i := hnd.2.1.2.2.2.2.2.2
  have hci : ¬c = i := hnd.2.2.1.2.2.2.2.2
  have hdi : ¬d = i := hnd.2.2.2.1.2.2.2.2
  have hei : ¬e = i := hnd.2.2.2.2.1.2.2.2
  have hfi : ¬f = i := hnd.2.2.2.2.2.1.2.2
  have hgi : ¬g = i := hnd.2.2.2.2.2.2.1.2
  have hhi : ¬h = i := hnd.2.2.2.2.2.2.2.1
  clear hnd hsub
  constructor
  · constructor
    · intro hz
      rw [misplaced_tile_3x3] at hz
      obtain ⟨e1, e2, e3, e4, e5, e6, e7, e8, e9⟩ :=
        sum9_eq_zero _ _ _ _ _ _ _ _ _ hz (ind_nonneg a 1) (ind_nonneg b 2)
          (ind_nonneg c 3) (ind_nonneg d 4) (ind_nonneg e 5) (ind_nonneg f 6)
          (ind_nonneg g 7) (ind_nonneg h 8) (ind_nonneg i 0)
      have i0 : i = 0 := Or.elim ((ind_eq_zero_iff i 0).mp e9) id id
      have r1 : a = 1 := pin_value a i 1 ((ind_eq_zero_iff a 1).mp e1) hai i0
      have r2 : b = 2 := pin_value b i 2 ((ind_eq_zero_iff b 2).mp e2) hbi i0
      have r3 : c = 3 := pin_value c i 3 ((ind_eq_zero_iff c 3).mp e3) hci i0
      have r4 : d = 4 := pin_value d i 4 ((ind_eq_zero_iff d 4).mp e4) hdi i0
      have r5 : e = 5 := pin_value e i 5 ((ind_eq_zero_iff e 5).mp e5) hei i0
      have r6 : f = 6 := pin_value f i 6 ((ind_eq_zero_iff f 6).mp e6) hfi i0
      have r7 : g = 7 := pin_value g i 7 ((ind_eq_zero_iff g 7).mp e7) hgi i0
      have r8 : h = 8 := pin_value h i 8 ((ind_eq_zero_iff h 8).mp e8) hhi i0
      subst r1 r2 r3 r4 r5 r6 r7 r8 i0
      rfl
    · intro hfin
      rw [hfin]
      decide
  · constructor
    · intro hz
      rw [manhattan_3x3] at hz
      obtain ⟨e1, e2, e3, e4, e5, e6, e7, e8, e9⟩ :=
        sum9_eq_zero _ _ _ _ _ _ _ _ _ hz (mterm_nonneg 3 a 0 0)
          (mterm_nonneg 3 b 0 1) (mterm_nonneg 3 c 0 2) (mterm_nonneg 3 d 1 0)
          (mterm_nonneg 3 e 1 1) (mterm_nonneg 3 f 1 2) (mterm_nonneg 3 g 2 0)
          (mterm_nonneg 3 h 2 1) (mterm_nonneg 3 i 2 2)
      have i0 : i = 0 := ((cell_mterm_zero i Bi.1 Bi.2).2.2.2.2.2.2.2.2).mp e9
      have r1 : a = 1 :=
        pin_value a i 1 (((cell_mterm_zero a Ba.1 Ba.2).1).mp e1) hai i0
      have r2 : b = 2 :=
        pin_value b i 2 (((cell_mterm_zero b Bb.1 Bb.2).2.1).mp e2) hbi i0
      have r3 : c = 3 :=
        pin_value c i 3 (((cell_mterm_zero c Bc.1 Bc.2).2.2.1).mp e3) hci i0
      have r4 : d = 4 :=
        pin_value d i 4 (((cell_mterm_zero d Bd.1 Bd.2).2.2.2.1).mp e4) hdi i0
      have r5 : e = 5 :=
        pin_value e i 5 (((cell_mterm_zero e Be.1 Be.2).2.2.2.2.1).mp e5) hei i0
      have r6 : f = 6 :=
        pin_value f i 6 (((cell_mterm_zero f Bf.1 Bf.2).2.2.2.2.2.1).mp e6) hfi i0
      have r7 : g = 7 :=
        pin_value g i 7 (((cell_mterm_zero g Bg.1 Bg.2).2.2.2.2.2.2.1).mp e7) hgi i0
      have r8 : h = 8 :=
        pin_value h i 8 (((cell_mterm_zero h Bh.1 Bh.2).2.2.2.2.2.2.2.1).mp e8) hhi i0
      subst r1 r2 r3 r4 r5 r6 r7 r8 i0
      rfl
    · intro hfin
      rw [hfin]
      decide

/-- C7 witness: the permutation hypothesis and both equivalences of
`heuristics_zero_iff_goal` at the goal board itself. -/
theorem heuristics_zero_iff_goal_witness :
    ([1, 2, 3, 4, 5, 6, 7, 8, 0] : List Int).Perm [0, 1, 2, 3, 4, 5, 6, 7, 8] ∧
    ((misplaced_tile [[1, 2, 3], [4, 5, 6], [7, 8, 0]] = 0 ↔
      [[1, 2, 3], [4, 5, 6], [7, 8, 0]] = Board.final) ∧
    (manhattan_distance [[1, 2, 3], [4, 5, 6], [7, 8, 0]] = 0 ↔
      [[1, 2, 3], [4, 5, 6], [7, 8, 0]] = Board.final)) :=
  ⟨by decide, heuristics_zero_iff_goal 1 2 3 4 5 6 7 8 0 (by decide)⟩

/-- C8: on a 3×3 board whose cells are a permutation of `0..8` (the only
dimension the fixed 3×3 goal grid supports), the Manhattan distance
dominates the misplaced-tile count. -/
theorem manhattan_ge_misplaced (a b c d e f g h i : Int)
    (hp : ([a, b, c, d, e, f, g, h, i] : List Int).Perm
      [0, 1, 2, 3, 4, 5, 6, 7, 8]) :
    misplaced_tile [[a, b, c], [d, e, f], [g, h, i]] ≤
      manhattan_distance [[a, b, c], [d, e, f], [g, h, i]] := by
  have hsub := hp.subset
  have hrange : ∀ x ∈ ([a, b, c, d, e, f, g, h, i] : List Int), 0 ≤ x ∧ x ≤ 8 := by
    intro x hx
    have hx2 := hsub hx
    simp only [List.mem_cons, List.not_mem_nil, or_false] at hx2
    omega
  have Ba := hrange a (by simp); have Bb := hrange b (by simp)
  have Bc := hrange c (by simp); have Bd := hrange d (by simp)
  have Be := hrange e (by simp); have Bf := hrange f (by simp)
  have Bg := hrange g (by simp); have Bh := hrange h (by simp)
  have Bi := hrange i (by simp)
  clear hsub
  rw [misplaced_tile_3x3, manhattan_3x3]
  have l1 := (cell_ind_le_mterm a Ba.1 Ba.2).1
  have l2 := (cell_ind_le_mterm b Bb.1 Bb.2).2.1
  have l3 := (cell_ind_le_mterm c Bc.1 Bc.2).2.2.1
  have l4 := (cell_ind_le_mterm d Bd.1 Bd.2).2.2.2.1
  have l5 := (cell_ind_le_mterm e Be.1 Be.2).2.2.2.2.1
  have l6 := (cell_ind_le_mterm f Bf.1 Bf.2).2.2.2.2.2.1
  have l7 := (cell_ind_le_mterm g Bg.1 Bg.2).2.2.2.2.2.2.1
  have l8 := (cell_ind_le_mterm h Bh.1 Bh.2).2.2.2.2.2.2.2.1
  have l9 := (cell_ind_le_mterm i Bi.1 Bi.2).2.2.2.2.2.2.2.2
  omega

/-- C8 witness: the permutation hypothesis and the inequality of
`manhattan_ge_misplaced` at the scrambled board `[[0,1,2],[4,5,3],[7,8,6]]`. -/
theorem manhattan_ge_misplaced_witness :
    ([0, 1, 2, 4, 5, 3, 7, 8, 6] : List Int).Perm [0, 1, 2, 3, 4, 5, 6, 7, 8] ∧
    misplaced_tile [[0, 1, 2], [4, 5, 3], [7, 8, 6]] ≤
      manhattan_distance [[0, 1, 2], [4, 5, 3], [7, 8, 6]] :=
  ⟨by decide, manhattan_ge_misplaced 0 1 2 4 5 3 7 8 6 (by decide)⟩

/-- C3 amended: what the visited set does guarantee at generation time —
no child returned by `generate_children` with a non-null visited filter
has its board contents in that filter. -/
theorem generate_children_not_visited (b : Board) (v : List (List (List Int))) :
    ∀ c ∈ b.generate_children (some v), c.state ∉ v := by
  unfold Board.generate_children
  generalize b.get_surrounding_valid_positions = ps
  suffices h : ∀ (acc : List Board), (∀ c ∈ acc, c.state ∉ v) →
      ∀ c ∈ ps.foldl (fun acc pos =>
        let nb := swapBlank b.state b.empty_row b.empty_col pos.1 pos.2
        if (match b.parent with | some p => decide (p.state = nb) | none => false)
        then acc
        else
          let found := (match some v with | some v => decide (nb ∈ v) | none => false)
          if found then acc
          else acc ++ [Board.child nb b (1 + b.depth) 0]) acc, c.state ∉ v by
    exact h [] (by simp)
  induction ps with
  | nil => intro acc hacc; simpa using hacc
  | cons hd tl ih =>
    intro acc hacc
    simp only [List.foldl_cons]
    apply ih
    intro c hc
    dsimp only at hc
    split at hc
    · exact hacc c hc
    · split at hc
      · exact hacc c hc
      · rcases List.mem_append.mp hc with hmem | hmem
        · exact hacc c hmem
        · simp only [List.mem_singleton] at hmem
          subst hmem
          next hfound =>
            simp only [decide_eq_true_eq] at hfound
            simpa [Board.state] using hfound

/-- C3 amended witness: a concrete instantiation of
`generate_children_not_visited` — expanding the one-move board with the
goal board in the visited filter keeps the child
`[[1,2,0],[4,5,3],[7,8,6]]`, whose contents are indeed not in the
filter. -/
theorem generate_children_not_visited_witness :
    (Board.child [[1, 2, 0], [4, 5, 3], [7, 8, 6]]
        (Board.root [[1, 2, 3], [4, 5, 0], [7, 8, 6]] 0 0) 1 0) ∈
      (Board.root [[1, 2, 3], [4, 5, 0], [7, 8, 6]] 0 0).generate_children
        (some [Board.final]) ∧
    (Board.child [[1, 2, 0], [4, 5, 3], [7, 8, 6]]
        (Board.root [[1, 2, 3], [4, 5, 0], [7, 8, 6]] 0 0) 1 0).state ∉
      [Board.final] :=
  ⟨by decide,
   generate_children_not_visited (Board.root [[1, 2, 3], [4, 5, 0], [7, 8, 6]] 0 0)
     [Board.final]
     (Board.child [[1, 2, 0], [4, 5, 3], [7, 8, 6]]
       (Board.root [[1, 2, 3], [4, 5, 0], [7, 8, 6]] 0 0) 1 0) (by decide)⟩

set_option maxHeartbeats 8000000 in
set_option maxRecDepth 100000 in
/-- C3 counterexample: on the solvable start `[[0,4,3],[2,1,5],[7,8,6]]`
(8 moves from the goal), the first 78 iterations of `uc_search` pop and
expand the same board contents twice — the visited set only blocks
re-generation of expanded boards as children, but two copies of one board
pushed by different parents before its first expansion are each popped
and expanded, incrementing the nodes-expanded counter both times. -/
theorem ucs_double_expansion_exists :
    ucsDoubleExpansion 78 [[0, 4, 3], [2, 1, 5], [7, 8, 6]] = true := by
  decide

theorem pyRange3 (x : Int) : pyRange (x - 1) (x + 2) = [x - 1, x, x + 1] := by
  unfold pyRange
  rw [show ((x + 2) - (x - 1)) = 3 from by ring]
  show ([0, 1, 2].map fun k => (x - 1) + k) = [x - 1, x, x + 1]
  simp only [List.map_cons, List.map_nil, List.cons.injEq, and_true]
  omega

/-- A left fold whose step appends a per-element contribution is the
concatenation of those contributions. -/
theorem foldl_append_form {α β : Type} (g : α → List β) (f : List β → α → List β)
    (hf : ∀ a e, f a e = a ++ g e) (l : List α) :
    ∀ acc : List β, l.foldl f acc = acc ++ l.flatMap g := by
  induction l with
  | nil => intro acc; simp
  | cons hd tl ih =>
    intro acc
    rw [List.foldl_cons, hf, ih, List.flatMap_cons, List.append_assoc]

/-- The appending loops of `get_surrounding_valid_positions` in `flatMap`
normal form. -/
theorem gsvpAux_bind (er ec n : Int) :
    gsvpAux er ec n =
      ([er - 1, er, er + 1].flatMap fun i =>
        if i < 0 ∨ n ≤ i then []
        else [ec - 1, ec, ec + 1].flatMap fun j =>
          if j < 0 ∨ n ≤ j then []
          else if (decide (er = i)).xor (decide (ec = j)) then [(i, j)] else []) := by
  unfold gsvpAux
  rw [pyRange3, pyRange3]
  rw [foldl_append_form _ _ ?hf [er - 1, er, er + 1] []]
  · rw [List.nil_append]
  case hf =>
    intro a e
    by_cases hb : e < 0 ∨ n ≤ e
    · simp [hb]
    · simp only [if_neg hb]
      rw [foldl_append_form _ _ ?hg [ec - 1, ec, ec + 1] a]
      case hg =>
        intro a2 e2
        by_cases hb2 : e2 < 0 ∨ n ≤ e2
        · simp [hb2]
        · simp only [if_neg hb2]
          by_cases hx : (decide (er = e)).xor (decide (ec = e2)) = true
          · simp [hx]
          · simp [hx]

/-- The `is_empty_row ^ is_empty_col == 1` test as a proposition. -/
theorem xor_decide_eq_true (p q : Prop) [inst1 : Decidable p] [inst2 : Decidable q] :
    ((decide p).xor (decide q) = true) ↔ ((p ∧ ¬q) ∨ (¬p ∧ q)) := by
  by_cases hp : p <;> by_cases hq : q <;> simp [hp, hq]

/-- Membership in a conditionally-skipped list (else side). -/
theorem mem_ite_nil {α : Type} (c : Prop) [inst : Decidable c] (a : α) (l : List α) :
    (a ∈ (if c then ([] : List α) else l)) ↔ (¬c ∧ a ∈ l) := by
  split_ifs with h <;> simp [h]

/-- Membership in a conditionally-kept list (then side). -/
theorem mem_ite_nil_right {α : Type} (c : Prop) [inst : Decidable c] (a : α)
    (l : List α) : (a ∈ (if c then l else ([] : List α))) ↔ (c ∧ a ∈ l) := by
  split_ifs with h <;> simp [h]

/-- A position is produced by `get_surrounding_valid_positions` exactly
when it is an in-bounds orthogonal neighbour of the blank: the window scan
with the XOR test captures precisely the four orthogonal offsets, with no
wraparound. -/
theorem gsvp_mem_iff (er ec n x y : Int) :
    ((x, y) ∈ gsvpAux er ec n) ↔ isOrthNeighborSpec er ec n x y := by
  rw [gsvpAux_bind]
  unfold isOrthNeighborSpec
  simp only [List.mem_flatMap, List.mem_cons, List.not_mem_nil, or_false,
    mem_ite_nil, mem_ite_nil_right, xor_decide_eq_true, Prod.mk.injEq,
    List.mem_singleton]
  constructor
  · rintro ⟨i, hi, hbi, j, hj, hbj, hx, rfl, rfl⟩
    omega
  · intro hyp
    refine ⟨x, by omega, by omega, y, by omega, by omega, by omega, rfl, rfl⟩

/-- The appending loop of `generate_children` in `flatMap` normal form. -/
theorem generate_children_bind (b : Board) (v : Option (List (List (List Int)))) :
    b.generate_children v =
      b.get_surrounding_valid_positions.flatMap (fun pos =>
        if (match b.parent with
            | some p => decide (p.state = swapBlank b.state b.empty_row b.empty_col pos.1 pos.2)
            | none => false) then []
        else if (match v with
            | some vl => decide (swapBlank b.state b.empty_row b.empty_col pos.1 pos.2 ∈ vl)
            | none => false) then []
        else [Board.child (swapBlank b.state b.empty_row b.empty_col pos.1 pos.2) b
          (1 + b.depth) 0]) := by
  unfold Board.generate_children
  rw [foldl_append_form _ _ ?hf _ []]
  · rw [List.nil_append]
  case hf =>
    intro a e
    dsimp only
    by_cases h1 : (match b.parent with
        | some p => decide (p.state = swapBlank b.state b.empty_row b.empty_col e.1 e.2)
        | none => false) = true
    · simp [h1]
    · simp only [h1, if_false, Bool.false_eq_true]
      by_cases h2 : (match v with
          | some vl => decide (swapBlank b.state b.empty_row b.empty_col e.1 e.2 ∈ vl)
          | none => false) = true
      · simp [h1, h2]
      · simp [h1, h2]

/-- `gsvp_mem_iff` phrased on a board object. -/
theorem mem_gsvp_board (b : Board) (x y : Int) :
    ((x, y) ∈ b.get_surrounding_valid_positions) ↔
      isOrthNeighborSpec b.empty_row b.empty_col (b.board_size : Int) x y :=
  gsvp_mem_iff b.empty_row b.empty_col (b.board_size : Int) x y

/-- A board object is returned by `generate_children` (with a parent and a
non-null visited filter) exactly when it is the fresh child of some valid
position whose swapped grid is neither the parent grid nor in the
filter. -/
theorem generate_children_mem (b p : Board) (v : List (List (List Int)))
    (hpar : b.parent = some p) (c : Board) :
    c ∈ b.generate_children (some v) ↔
      ∃ pos ∈ b.get_surrounding_valid_positions,
        c = Board.child (swapBlank b.state b.empty_row b.empty_col pos.1 pos.2) b
          (1 + b.depth) 0 ∧
        ¬p.state = swapBlank b.state b.empty_row b.empty_col pos.1 pos.2 ∧
        swapBlank b.state b.empty_row b.empty_col pos.1 pos.2 ∉ v := by
  rw [generate_children_bind]
  simp only [hpar, List.mem_flatMap, mem_ite_nil, List.mem_singleton,
    decide_eq_true_eq]
  constructor
  · rintro ⟨pos, hpos, hne, hnv, rfl⟩
    exact ⟨pos, hpos, rfl, hne, hnv⟩
  · rintro ⟨pos, hpos, rfl, hne, hnv⟩
    exact ⟨pos, hpos, hne, hnv, rfl⟩

/-- The grid stored in a freshly created child. -/
theorem Board.state_child (s : List (List Int)) (p : Board) (d c : Int) :
    (Board.child s p d c).state = s := rfl

/-- C2: for every board with a parent, the grids returned by
`generate_children(visited)` are exactly those obtained by one orthogonal
swap of the blank with an in-bounds neighbour (the four non-diagonal
neighbours, no wraparound), excluding the parent board and the boards in
the non-null visited filter; and for a root board with the blank at a
corner of a grid of dimension at least 2, there are exactly 2 valid
neighbour positions. -/
theorem generate_children_exactly_orth_swaps :
    (∀ (b p : Board) (v : List (List (List Int))) (s : List (List Int)),
      b.parent = some p →
      (s ∈ (b.generate_children (some v)).map Board.state ↔
        ∃ x y : Int,
          isOrthNeighborSpec b.empty_row b.empty_col (b.board_size : Int) x y ∧
          s = swapBlank b.state b.empty_row b.empty_col x y ∧
          s ≠ p.state ∧ s ∉ v)) ∧
    (∀ b : Board, b.parent = none → 2 ≤ b.board_size →
      ((b.empty_row = 0 ∨ b.empty_row = (b.board_size : Int) - 1) ∧
       (b.empty_col = 0 ∨ b.empty_col = (b.board_size : Int) - 1)) →
      b.get_surrounding_valid_positions.length = 2) := by
  constructor
  · intro b p v s hpar
    simp only [List.mem_map]
    constructor
    · rintro ⟨c, hc, rfl⟩
      rw [generate_children_mem b p v hpar] at hc
      obtain ⟨pos, hpos, rfl, hne, hnv⟩ := hc
      simp only [Board.state_child]
      exact ⟨pos.1, pos.2, (mem_gsvp_board b pos.1 pos.2).mp hpos, rfl,
        fun hcon => hne hcon.symm, hnv⟩
    · rintro ⟨x, y, hx, rfl, hne, hnv⟩
      refine ⟨Board.child (swapBlank b.state b.empty_row b.empty_col x y) b
        (1 + b.depth) 0, ?_, by simp only [Board.state_child]⟩
      rw [generate_children_mem b p v hpar]
      exact ⟨(x, y), (mem_gsvp_board b x y).mpr hx, rfl,
        fun hcon => hne hcon.symm, hnv⟩
  · intro b hpar hn hcorner
    unfold Board.get_surrounding_valid_positions
    rw [gsvpAux_bind]
    have g1 : ¬((b.board_size : Int) ≤ 0) := by omega
    have g2 : ¬((b.board_size : Int) ≤ 1) := by omega
    have g3 : ¬(b.board_size ≤ 0) := by omega
    have g4 : ¬(b.board_size ≤ 1) := by omega
    have g5 : ¬((b.board_size : Int) - 1 - 1 < 0) := by omega
    have g6 : ¬((b.board_size : Int) ≤ (b.board_size : Int) - 1 - 1) := by omega
    have g7 : (b.board_size : Int) ≤ (b.board_size : Int) - 1 + 1 := by omega
    have g8 : ¬((b.board_size : Int) - 1 = (b.board_size : Int) - 1 - 1) := by omega
    have g9 : ¬((b.board_size : Int) - 1 < 0) := by omega
    have g10 : ¬((b.board_size : Int) ≤ (b.board_size : Int) - 1) := by omega
    rcases hcorner with ⟨h1 | h1, h2 | h2⟩ <;> rw [h1, h2] <;>
      simp [g1, g2, g3, g4, g5, g6, g7, g8, g9, g10]

/-- C2 witness: both parts of `generate_children_exactly_orth_swaps`
applied at concrete boards — membership of a one-swap grid among the
children of a parented board, and the 2 neighbour positions of a root
board with the blank at corner `(0,0)`. -/
theorem generate_children_exactly_orth_swaps_witness :
    (([[1, 2, 0], [4, 5, 3], [7, 8, 6]] : List (List Int)) ∈
      ((Board.child [[1, 2, 3], [4, 5, 0], [7, 8, 6]]
          (Board.root [[1, 2, 3], [4, 5, 6], [7, 8, 0]] 0 0) 1 0).generate_children
        (some [])).map Board.state) ∧
    (Board.root [[0, 1, 2], [4, 5, 3], [7, 8, 6]] 0 0).get_surrounding_valid_positions.length
      = 2 := by
  constructor
  · exact (generate_children_exactly_orth_swaps.1
      (Board.child [[1, 2, 3], [4, 5, 0], [7, 8, 6]]
        (Board.root [[1, 2, 3], [4, 5, 6], [7, 8, 0]] 0 0) 1 0)
      (Board.root [[1, 2, 3], [4, 5, 6], [7, 8, 0]] 0 0) [] _
      rfl).mpr ⟨0, 2, by decide, by decide, by decide, by simp⟩
  · exact generate_children_exactly_orth_swaps.2 (Board.root [[0, 1, 2], [4, 5, 3], [7, 8, 6]] 0 0) rfl
      (by decide) (by decide)

theorem cost_getD (l : List HeapItem) (hl : ∀ it ∈ l, (it : HeapItem).2.cost = 0)
    (idx : Nat) (d : HeapItem) (hd : d.2.cost = 0) : (l.getD idx d).2.cost = 0 := by
  by_cases h : idx < l.length
  · rw [List.getD_eq_getElem l d h]
    exact hl _ (List.getElem_mem h)
  · rw [List.getD_eq_default l d (by omega)]
    exact hd

/-- Writing a cost-zero item preserves a cost-zero heap. -/
theorem cost_set (l : List HeapItem) (hl : ∀ it ∈ l, (it : HeapItem).2.cost = 0)
    (idx : Nat) (x : HeapItem) (hx : x.2.cost = 0) :
    ∀ it ∈ l.set idx x, (it : HeapItem).2.cost = 0 := by
  intro it hit
  rcases List.mem_or_eq_of_mem_set hit with h | h
  · exact hl _ h
  · rw [h]; exact hx

/-- The default item is cost-zero. -/
theorem cost_dummy : (dummyItem).2.cost = 0 := rfl

/-- The `_siftdown` loop preserves cost-zero heaps. -/
theorem cost_siftdownGo (fuel : Nat) :
    ∀ (heap : List HeapItem) (startpos pos : Nat) (newitem : HeapItem),
    (∀ it ∈ heap, (it : HeapItem).2.cost = 0) → newitem.2.cost = 0 →
    ∀ it ∈ siftdownGo fuel heap startpos pos newitem, (it : HeapItem).2.cost = 0 := by
  induction fuel with
  | zero =>
    intro heap startpos pos newitem hh hn
    exact cost_set heap hh pos newitem hn
  | succ n ih =>
    intro heap startpos pos newitem hh hn
    rw [siftdownGo]
    by_cases h1 : startpos < pos
    · rw [if_pos h1]
      by_cases h2 : itemLt newitem (heap.getD ((pos - 1) / 2) dummyItem) = true
      · rw [if_pos h2]
        exact ih _ _ _ _
          (cost_set heap hh pos _ (cost_getD heap hh _ _ cost_dummy)) hn
      · rw [if_neg h2]
        exact cost_set heap hh pos newitem hn
    · rw [if_neg h1]
      exact cost_set heap hh pos newitem hn

/-- The `_siftup` descend loop preserves cost-zero heaps. -/
theorem cost_siftupGo (fuel : Nat) :
    ∀ (heap : List HeapItem) (endpos pos : Nat),
    (∀ it ∈ heap, (it : HeapItem).2.cost = 0) →
    ∀ it ∈ (siftupGo fuel heap endpos pos).1, (it : HeapItem).2.cost = 0 := by
  induction fuel with
  | zero => intro heap endpos pos hh; exact hh
  | succ n ih =>
    intro heap endpos pos hh
    rw [siftupGo]
    by_cases h1 : 2 * pos + 1 < endpos
    · rw [if_pos h1]
      by_cases h2 : 2 * pos + 2 < endpos ∧
          itemLt (heap.getD (2 * pos + 1) dummyItem)
            (heap.getD (2 * pos + 2) dummyItem) = false
      · rw [if_pos h2]
        exact ih _ _ _ (cost_set heap hh pos _ (cost_getD heap hh _ _ cost_dummy))
      · rw [if_neg h2]
        exact ih _ _ _ (cost_set heap hh pos _ (cost_getD heap hh _ _ cost_dummy))
    · rw [if_neg h1]
      exact hh

/-- `heappush` of a cost-zero item preserves cost-zero heaps. -/
theorem cost_heappush (heap : List HeapItem)
    (hh : ∀ it ∈ heap, (it : HeapItem).2.cost = 0) (item : HeapItem)
    (hi : item.2.cost = 0) :
    ∀ it ∈ heappush heap item, (it : HeapItem).2.cost = 0 := by
  unfold heappush siftdownLoop
  apply cost_siftdownGo
  · intro it hit
    rcases List.mem_append.mp hit with h | h
    · exact hh _ h
    · rw [List.mem_singleton.mp h]; exact hi
  · exact hi

/-- The last element of a cost-zero heap is cost-zero. -/
theorem cost_getLastD (l : List HeapItem)
    (hl : ∀ it ∈ l, (it : HeapItem).2.cost = 0) (d : HeapItem) (hd : d.2.cost = 0) :
    (l.getLastD d).2.cost = 0 := by
  induction l generalizing d with
  | nil => exact hd
  | cons hd2 tl ih =>
    rw [List.getLastD_cons]
    exact ih (fun it hit => hl _ (List.mem_cons_of_mem _ hit)) hd2
      (hl _ (List.mem_cons_self _ _))

/-- `heappop` from a cost-zero heap yields a cost-zero item and heap. -/
theorem cost_heappop (heap : List HeapItem)
    (hh : ∀ it ∈ heap, (it : HeapItem).2.cost = 0) (top : HeapItem)
    (rest : List HeapItem) (hpop : heappop heap = some (top, rest)) :
    top.2.cost = 0 ∧ ∀ it ∈ rest, (it : HeapItem).2.cost = 0 := by
  unfold heappop at hpop
  by_cases h1 : heap.isEmpty
  · rw [if_pos h1] at hpop; exact absurd hpop (by simp)
  · rw [if_neg h1] at hpop
    have hdrop : ∀ it ∈ heap.dropLast, (it : HeapItem).2.cost = 0 :=
      fun it hit => hh _ (List.dropLast_subset heap hit)
    have hlast : (heap.getLastD dummyItem).2.cost = 0 :=
      cost_getLastD heap hh dummyItem cost_dummy
    by_cases h2 : heap.dropLast.isEmpty
    · rw [if_pos h2] at hpop
      injection hpop with h
      injection h with h3 h4
      subst h3 h4
      exact ⟨hlast, by simp⟩
    · rw [if_neg h2] at hpop
      have hset : ∀ it ∈ heap.dropLast.set 0 (heap.getLastD dummyItem),
          (it : HeapItem).2.cost = 0 :=
        cost_set _ hdrop 0 _ hlast
      injection hpop with h
      injection h with h3 h4
      subst h3 h4
      constructor
      · exact cost_getD _ hdrop 0 dummyItem cost_dummy
      · unfold siftup siftdownLoop
        apply cost_siftdownGo
        · apply cost_set
          · exact cost_siftupGo _ _ _ _ hset
          · exact cost_getD _ hset _ _ cost_dummy
        · exact cost_getD _ hset _ _ cost_dummy

/-- Every child created by `generate_children` has `cost = 0`: the
constructor writes `0` and nothing reassigns it. -/
theorem cost_children (b : Board) (v : Option (List (List (List Int)))) (c : Board)
    (hc : c ∈ b.generate_children v) : c.cost = 0 := by
  rw [generate_children_bind] at hc
  simp only [List.mem_flatMap, mem_ite_nil, List.mem_singleton] at hc
  obtain ⟨pos, hpos, h1, h2, rfl⟩ := hc
  rfl

/-- Pushing all children of an expansion preserves cost-zero frontiers. -/
theorem cost_pushAll (children : List Board) (hc : ∀ c ∈ children, Board.cost c = 0)
    (cost : Int) :
    ∀ (heap : List HeapItem), (∀ it ∈ heap, (it : HeapItem).2.cost = 0) →
    ∀ it ∈ children.foldl (fun h c => heappush h (1 + cost, c)) heap,
      (it : HeapItem).2.cost = 0 := by
  induction children with
  | nil => intro heap hh; exact hh
  | cons hd tl ih =>
    intro heap hh
    rw [List.foldl_cons]
    exact ih (fun c hcm => hc _ (List.mem_cons_of_mem _ hcm)) _
      (cost_heappush heap hh _ (hc _ (List.mem_cons_self _ _)))

/-- Invariant of the `uc_search` loop: starting from a cost-zero frontier
and trace, every expanded board and the returned board have `cost = 0`. -/
theorem cost_ucsLoop (fuel : Nat) :
    ∀ (nodes : List HeapItem) (visited : List (List (List Int)))
      (count maxq : Nat) (trace : List Board) (r : RunResult),
    (∀ it ∈ nodes, (it : HeapItem).2.cost = 0) →
    (∀ bb ∈ trace, Board.cost bb = 0) →
    ucsLoop fuel nodes visited count maxq trace = r →
    (∀ bb ∈ r.trace, Board.cost bb = 0) ∧
      (∀ bb, r.result = some bb → Board.cost bb = 0) := by
  induction fuel with
  | zero =>
    intro nodes visited count maxq trace r hn ht hrun
    subst hrun
    exact ⟨ht, fun bb hbb => Option.noConfusion hbb⟩
  | succ n ih =>
    intro nodes visited count maxq trace r hn ht hrun
    rw [ucsLoop] at hrun
    cases hpop : heappop nodes with
    | none =>
      rw [hpop] at hrun
      subst hrun
      exact ⟨ht, fun bb hbb => Option.noConfusion hbb⟩
    | some pr =>
      obtain ⟨⟨cost, b⟩, nodes1⟩ := pr
      rw [hpop] at hrun
      dsimp only at hrun
      obtain ⟨hb, hrest⟩ := cost_heappop nodes hn _ _ hpop
      by_cases hfin : b.is_final_state = true
      · rw [if_pos hfin] at hrun
        subst hrun
        exact ⟨ht, by intro bb hbb; injection hbb with h2; subst h2; exact hb⟩
      · rw [if_neg hfin] at hrun
        refine ih _ _ _ _ _ _ ?_ ?_ hrun
        · exact cost_pushAll _ (fun c hcm => cost_children b _ c hcm) cost _ hrest
        · intro bb hbb
          rcases List.mem_append.mp hbb with h | h
          · exact ht _ h
          · rw [List.mem_singleton.mp h]; exact hb

/-- One `for child` step of `astar_search` preserves cost-zero
frontiers. -/
theorem cost_astarChildStep (heuristic : Int) (b : Board)
    (acc acc2 : List HeapItem × List (List (List Int) × Int) ×
      List (Int × List (List Int))) (child : Board)
    (hacc : ∀ it ∈ acc.1, (it : HeapItem).2.cost = 0) (hchild : child.cost = 0)
    (hstep : astarChildStep heuristic b acc child = some acc2) :
    ∀ it ∈ acc2.1, (it : HeapItem).2.cost = 0 := by
  unfold astarChildStep at hstep
  cases hgb : gxLookup acc.2.1 b.state with
  | none => rw [hgb] at hstep; exact absurd hstep (by simp)
  | some gb =>
    rw [hgb] at hstep
    dsimp only at hstep
    cases hgc : gxLookup
        (if acc.2.1.any (fun p => decide (p.1 = child.state)) then acc.2.1
         else acc.2.1 ++ [(child.state, 100000000)]) child.state with
    | none => rw [hgc] at hstep; exact absurd hstep (by simp)
    | some gc =>
      rw [hgc] at hstep
      dsimp only at hstep
      by_cases hlt : 1 + gb < gc
      · rw [if_pos hlt] at hstep
        by_cases hmem : (get_heuristic_cost heuristic (some child) + (1 + gb),
            child.state) ∈ acc.2.2
        · rw [if_pos hmem] at hstep
          injection hstep with h
          subst h
          exact hacc
        · rw [if_neg hmem] at hstep
          injection hstep with h
          subst h
          exact cost_heappush _ hacc _ hchild
      · rw [if_neg hlt] at hstep
        injection hstep with h
        subst h
        exact hacc

/-- The `for child in children` fold of `astar_search` preserves
cost-zero frontiers. -/
theorem cost_astarFold (heuristic : Int) (b : Board) (children : List Board)
    (hc : ∀ c ∈ children, Board.cost c = 0) :
    ∀ (acc out : List HeapItem × List (List (List Int) × Int) ×
      List (Int × List (List Int))),
    (∀ it ∈ acc.1, (it : HeapItem).2.cost = 0) →
    children.foldlM (astarChildStep heuristic b) acc = some out →
    ∀ it ∈ out.1, (it : HeapItem).2.cost = 0 := by
  induction children with
  | nil =>
    intro acc out hacc hfold
    injection hfold with h
    subst h
    exact hacc
  | cons hd tl ih =>
    intro acc out hacc hfold
    rw [List.foldlM_cons] at hfold
    cases hstep : astarChildStep heuristic b acc hd with
    | none => rw [hstep] at hfold; exact absurd hfold (by simp)
    | some acc1 =>
      rw [hstep] at hfold
      exact ih (fun c hcm => hc _ (List.mem_cons_of_mem _ hcm)) acc1 out
        (cost_astarChildStep heuristic b acc acc1 hd hacc
          (hc _ (List.mem_cons_self _ _)) hstep) hfold

/-- Invariant of the `astar_search` loop: starting from a cost-zero
frontier and trace, every expanded board and the returned board have
`cost = 0`. -/
theorem cost_astarLoop (fuel : Nat) (heuristic : Int) :
    ∀ (nodes : List HeapItem) (gx : List (List (List Int) × Int))
      (vp : List (Int × List (List Int))) (count maxq : Nat) (trace : List Board)
      (r : RunResult),
    (∀ it ∈ nodes, (it : HeapItem).2.cost = 0) →
    (∀ bb ∈ trace, Board.cost bb = 0) →
    astarLoop fuel heuristic nodes gx vp count maxq trace = some r →
    (∀ bb ∈ r.trace, Board.cost bb = 0) ∧
      (∀ bb, r.result = some bb → Board.cost bb = 0) := by
  induction fuel with
  | zero =>
    intro nodes gx vp count maxq trace r hn ht hrun
    injection hrun with h
    subst h
    exact ⟨ht, fun bb hbb => Option.noConfusion hbb⟩
  | succ n ih =>
    intro nodes gx vp count maxq trace r hn ht hrun
    rw [astarLoop] at hrun
    cases hpop : heappop nodes with
    | none =>
      rw [hpop] at hrun
      injection hrun with h
      subst h
      exact ⟨ht, by intro bb hbb; exact absurd hbb (by simp)⟩
    | some pr =>
      obtain ⟨⟨cost, b⟩, nodes1⟩ := pr
      rw [hpop] at hrun
      dsimp only at hrun
      obtain ⟨hb, hrest⟩ := cost_heappop nodes hn _ _ hpop
      by_cases hfin : b.is_final_state = true
      · rw [if_pos hfin] at hrun
        injection hrun with h
        subst h
        exact ⟨ht, by intro bb hbb; injection hbb with h2; subst h2; exact hb⟩
      · rw [if_neg hfin] at hrun
        cases hfold : (b.generate_children none).foldlM
            (astarChildStep heuristic b) (nodes1, gx, vp) with
        | none => rw [hfold] at hrun; exact absurd hrun (by simp)
        | some out =>
          obtain ⟨nodes2, gx2, vp2⟩ := out
          rw [hfold] at hrun
          refine ih _ _ _ _ _ _ _ ?_ ?_ hrun
          · exact cost_astarFold heuristic b _
              (fun c hcm => cost_children b _ c hcm) (nodes1, gx, vp) _ hrest hfold
          · intro bb hbb
            rcases List.mem_append.mp hbb with h | h
            · exact ht _ h
            · rw [List.mem_singleton.mp h]; exact hb

/-- Between two cost-zero boards, `Board.__lt__` holds exactly when the
states are equal and the depths are strictly ordered: the primary cost key
compares `0` with `0`, so distinct-state boards are mutually not-less-than
and only equal-state boards fall through to the depth tie-break. -/
theorem boardLt_zero_cost (b1 b2 : Board) (h1 : b1.cost = 0) (h2 : b2.cost = 0) :
    (boardLt b1 b2 = true) ↔ (b1.state = b2.state ∧ b1.depth < b2.depth) := by
  unfold boardLt
  rw [h1, h2]
  split_ifs with hc
  · simp only [decide_eq_true_eq]
    exact ⟨fun hd => ⟨hc.2, hd⟩, fun hd => hd.2⟩
  · have hne : b1.state ≠ b2.state := fun hs => hc ⟨rfl, hs⟩
    simp [hne]

/-- C10: the `cost` attribute of every board is `0` at construction, on
every child produced by `generate_children`, on every board expanded or
returned by a `uc_search` or `astar_search` run, and consequently
`Board.__lt__` between the boards in play compares `0` with `0` on its
primary key and reduces to the depth tie-break exactly when the states
are equal. -/
theorem cost_always_zero_and_lt_reduces :
    (∀ (s : List (List Int)) (p : Option Board), (Board.init s p).cost = 0) ∧
    (∀ (b : Board) (v : Option (List (List (List Int)))),
      ∀ c ∈ b.generate_children v, Board.cost c = 0) ∧
    (∀ (fuel : Nat) (initial : List (List Int)) (r : RunResult),
      uc_search fuel initial = r →
      (∀ bb ∈ r.trace, Board.cost bb = 0) ∧
        (∀ bb, r.result = some bb → Board.cost bb = 0)) ∧
    (∀ (fuel : Nat) (heuristic : Int) (initial : List (List Int)) (r : RunResult),
      astar_search fuel heuristic initial = some r →
      (∀ bb ∈ r.trace, Board.cost bb = 0) ∧
        (∀ bb, r.result = some bb → Board.cost bb = 0)) ∧
    (∀ b1 b2 : Board, b1.cost = 0 → b2.cost = 0 →
      ((boardLt b1 b2 = true) ↔ (b1.state = b2.state ∧ b1.depth < b2.depth))) := by
  refine ⟨?_, ?_, ?_, ?_, ?_⟩
  · intro s p; cases p <;> rfl
  · intro b v c hc; exact cost_children b v c hc
  · intro fuel initial r hrun
    unfold uc_search at hrun
    refine cost_ucsLoop fuel _ _ _ _ _ _ ?_ (by simp) hrun
    exact cost_heappush [] (by simp) _ (by cases initial <;> rfl)
  · intro fuel heuristic initial r hrun
    unfold astar_search at hrun
    refine cost_astarLoop fuel heuristic _ _ _ _ _ _ _ ?_ (by simp) hrun
    exact cost_heappush [] (by simp) _ (by cases initial <;> rfl)
  · intro b1 b2 h1 h2; exact boardLt_zero_cost b1 b2 h1 h2

/-- C10 witness: `cost_always_zero_and_lt_reduces` applied at concrete
inputs — a freshly constructed root, a concrete generated child, the
boards of concrete `uc_search`/`astar_search` runs on the goal board, and
the `__lt__` reduction on two cost-zero boards. -/
theorem cost_always_zero_witness :
    ((Board.init [[1, 2, 3], [4, 5, 0], [7, 8, 6]] none).cost = 0) ∧
    (Board.cost (Board.child [[1, 2, 0], [4, 5, 3], [7, 8, 6]]
        (Board.root [[1, 2, 3], [4, 5, 0], [7, 8, 6]] 0 0) 1 0) = 0) ∧
    ((Board.root Board.final 0 0).cost = 0) ∧
    ((Board.root Board.final 0 0).cost = 0) ∧
    (boardLt (Board.root [[1, 2, 3], [4, 5, 0], [7, 8, 6]] 3 0)
        (Board.root [[1, 2, 3], [4, 5, 0], [7, 8, 6]] 5 0) = true ↔
      ((Board.root [[1, 2, 3], [4, 5, 0], [7, 8, 6]] 3 0).state =
          (Board.root [[1, 2, 3], [4, 5, 0], [7, 8, 6]] 5 0).state ∧
        (Board.root [[1, 2, 3], [4, 5, 0], [7, 8, 6]] 3 0).depth <
          (Board.root [[1, 2, 3], [4, 5, 0], [7, 8, 6]] 5 0).depth)) := by
  refine ⟨?_, ?_, ?_, ?_, ?_⟩
  · exact cost_always_zero_and_lt_reduces.1 [[1, 2, 3], [4, 5, 0], [7, 8, 6]] none
  · exact cost_always_zero_and_lt_reduces.2.1
      (Board.root [[1, 2, 3], [4, 5, 0], [7, 8, 6]] 0 0) (some []) _ (by decide)
  · exact (cost_always_zero_and_lt_reduces.2.2.1 5 Board.final
      ⟨some (Board.root Board.final 0 0), 0, 0, []⟩ rfl).2 _ rfl
  · exact (cost_always_zero_and_lt_reduces.2.2.2.1 5 MISPLACED_TILE Board.final
      ⟨some (Board.root Board.final 0 0), 0, 0, []⟩ rfl).2 _ rfl
  · exact cost_always_zero_and_lt_reduces.2.2.2.2 _ _ rfl rfl
